import Mathlib

/-!
# Verification of the railgun-explorer ingestion and aggregation pipeline

Shallow embedding of the checkpointed ingestion loop (`src/indexer/indexPolygon.ts`,
`src/indexer/indexEthereum.ts`), the event decoder (`src/indexer/eventDecoder.ts`),
the amount normalization, the SQLite event store with its idempotent insert
semantics (`src/db/schema.ts`), and the daily aggregation jobs
(`src/analytics/dailyFlows.ts`, `src/analytics/relayerStats.ts`).

Conventions of the embedding:
* JavaScript bigints and SQLite integers are modelled as `Nat` (all quantities
  involved — block numbers, log indices, raw amounts — are non-negative in the
  source); raw bigint amounts carried as decimal strings are modelled by their
  numeric value.
* JavaScript `number` arithmetic on normalized amounts is idealized as exact
  rational (`ℚ`) arithmetic.
* `null`/`undefined` become `Option`; a thrown exception that the caller
  catches becomes an `Except`/`Option` result.
* The SQLite database is modelled as the list of rows in insertion order;
  `INSERT ... ON CONFLICT DO NOTHING` on the `events` table skips a row whose
  `(chain, txHash, logIndex)` key is already present (`txLogUnique` in
  `src/db/schema.ts`).
-/

/-- `EventType` from `src/indexer/config.ts` / `configPolygon.ts`:
`'deposit' | 'withdrawal' | 'relayer_payment' | 'other'`. -/
inductive EventType where
  | deposit
  | withdrawal
  | relayer_payment
  | other
deriving DecidableEq, Repr

/-- The uniqueness key of the `events` table: `unique().on(table.chain,
table.txHash, table.logIndex)` (`txLogUnique`, `src/db/schema.ts`). -/
structure EventKey where
  chain : String
  txHash : String
  logIndex : Nat
deriving DecidableEq, Repr

/-- A row of the `events` table (`src/db/schema.ts`), without the surrogate
autoincrement `id`.  `logIndex` here is the *stored* log index, i.e. already
includes the sub-index encoding (`log.logIndex * 100 + i`). -/
structure EventRow where
  chain : String
  txHash : String
  logIndex : Nat
  blockNumber : Nat
  blockTimestamp : Nat
  contractName : String
  eventName : String
  eventType : EventType
  tokenId : Option Nat
  rawAmountWei : Option Nat
  amountNormalized : Option ℚ
  relayerAddress : Option String
  fromAddress : Option String
  toAddress : Option String
  metadataJson : String
deriving DecidableEq, Repr

/-- The uniqueness key of a row. -/
def EventRow.key (e : EventRow) : EventKey :=
  ⟨e.chain, e.txHash, e.logIndex⟩

/-- Whether the store already holds a row with key `k`. -/
def hasKey (db : List EventRow) (k : EventKey) : Bool :=
  db.any fun e => e.key = k

/-- One `INSERT INTO events ... ON CONFLICT DO NOTHING`: append the row unless
a row with the same `(chain, txHash, logIndex)` key is already present
(`txLogUnique` unique constraint, `src/db/schema.ts`). -/
def insertIgnore (db : List EventRow) (e : EventRow) : List EventRow :=
  if hasKey db e.key then db else db ++ [e]

/-- Persisting a batch of decoded events: every `NewEvent` of the batch is
inserted with `onConflictDoNothing` semantics, in order.  This is the net
store effect both of the Polygon `indexBatch` (chunked inserts inside one
`db.transaction`, `src/indexer/indexPolygon.ts` lines 221-236) and of the
Ethereum `indexBatch` (one insert per event, `src/indexer/indexEthereum.ts`). -/
def persistBatch (db : List EventRow) (es : List EventRow) : List EventRow :=
  es.foldl insertIgnore db

/-- The stored log index for the `i`-th `DecodedEvent` of a log with on-chain
log index `logIndex`: `log.logIndex * 100 + i` ("Sub-index for multiple events
per log", `src/indexer/indexPolygon.ts` line 150 / `indexEthereum.ts`). -/
def storedLogIndex (logIndex subEntry : Nat) : Nat :=
  logIndex * 100 + subEntry

/-- The full stored key assigned to the `i`-th decoded sub-entry of a log. -/
def storedKey (chain txHash : String) (logIndex subEntry : Nat) : EventKey :=
  ⟨chain, txHash, storedLogIndex logIndex subEntry⟩

/-! ## Checkpointed ingestion loop (`main` in `src/indexer/indexPolygon.ts`
and `src/indexer/indexEthereum.ts`)

Both indexers run the identical loop: while `currentBlock < safeBlock`,
compute `toBlock = currentBlock + BATCH_SIZE > safeBlock ? safeBlock :
currentBlock + BATCH_SIZE`, run `indexBatch(currentBlock + 1, toBlock)`, then
`setLastIndexedBlock(toBlock)` and `currentBlock = toBlock`; a batch error is
logged and re-thrown, ending the loop with no checkpoint write. -/

/-- Static indexer configuration.  `BATCH_SIZE` is `500n` (Polygon) or
`1000n` (Ethereum); it is positive in every configuration, which the loop
needs in order to make progress. -/
structure IndexerConfig where
  batchSize : Nat
  batchSize_pos : 0 < batchSize

/-- `toBlock` of the next batch:
`currentBlock + BATCH_SIZE > safeBlock ? safeBlock : currentBlock + BATCH_SIZE`. -/
def nextToBlock (cfg : IndexerConfig) (safe cur : Nat) : Nat :=
  if cur + cfg.batchSize > safe then safe else cur + cfg.batchSize

/-- Observable outcome of one run of the loop: the successfully persisted
batch ranges in order, the checkpoint values durably stored by
`setLastIndexedBlock` in order, and the batch at which the loop aborted
together with its error, if any. -/
structure LoopRun where
  batches : List (Nat × Nat)
  writes : List Nat
  failed : Option ((Nat × Nat) × String)
deriving DecidableEq, Repr

/-- The `while (currentBlock < safeBlock)` loop of `main`.  `runBatch lo hi`
is the combined effect of `indexBatch(lo, hi)` — `Except.error` models the
exception that `indexBatch` throws after its bounded retries are exhausted,
which `main` re-throws after logging. -/
def ingestLoop (cfg : IndexerConfig) (runBatch : Nat → Nat → Except String Unit)
    (safe cur : Nat) : LoopRun :=
  if cur < safe then
    match runBatch (cur + 1) (nextToBlock cfg safe cur) with
    | .ok _ =>
      let rest := ingestLoop cfg runBatch safe (nextToBlock cfg safe cur)
      ⟨(cur + 1, nextToBlock cfg safe cur) :: rest.batches,
        nextToBlock cfg safe cur :: rest.writes, rest.failed⟩
    | .error e => ⟨[], [], some ((cur + 1, nextToBlock cfg safe cur), e)⟩
  else ⟨[], [], none⟩
termination_by safe - cur
decreasing_by
  have hb := cfg.batchSize_pos
  unfold nextToBlock
  split <;> omega

/-! ## Persist-transaction structure (C4)

Polygon `indexBatch` (`src/indexer/indexPolygon.ts` lines 221-236) collects
all decoded events of the batch into `eventsToInsert` and — when non-empty —
issues **one** `db.transaction` that inserts them in chunks of 100, each chunk
with `onConflictDoNothing()`.  The Ethereum `indexBatch`
(`src/indexer/indexEthereum.ts`, second half of `src/indexer/config.ts`)
instead awaits an individual `db.insert(...).onConflictDoNothing()` per
decoded event, with no enclosing transaction. -/

/-- `CHUNK_SIZE = 100` ("Insert in chunks of 100 to avoid SQLite variable
limits", `src/indexer/indexPolygon.ts`). -/
def chunks100 {α : Type} : List α → List (List α)
  | [] => []
  | a :: t => ((a :: t).take 100) :: chunks100 ((a :: t).drop 100)
termination_by l => l.length
decreasing_by
  simp only [List.length_drop, List.length_cons]
  omega

/-- One atomic store transaction; `stmts` are the insert statements executed
inside it (each statement inserts a list of rows with `onConflictDoNothing`
semantics). -/
structure PersistTxn where
  stmts : List (List EventRow)
deriving DecidableEq, Repr

/-- The sequence of atomic transactions the Polygon `indexBatch` issues to
persist a batch's decoded events: nothing when the batch decoded to no events
(`if (eventsToInsert.length > 0)`), otherwise a single `db.transaction`
containing one chunked insert statement per 100 events. -/
def polygonPersistTxns (es : List EventRow) : List PersistTxn :=
  if es.length > 0 then [⟨chunks100 es⟩] else []

/-- The sequence of atomic transactions the Ethereum `indexBatch` issues: one
implicit single-statement transaction per decoded event
(`await db.insert(schema.events).values({...}).onConflictDoNothing()`). -/
def ethereumPersistTxns (es : List EventRow) : List PersistTxn :=
  es.map fun e => ⟨[[e]]⟩

/-- All rows inserted by a transaction, in order. -/
def PersistTxn.rows (t : PersistTxn) : List EventRow :=
  t.stmts.flatten

/-- An arbitrary concrete event row, used in counterexamples. -/
def sampleRow (n : Nat) : EventRow :=
  ⟨"ethereum", "0xtx", n, 1, 0, "Relay", "Unshield", EventType.withdrawal,
    none, none, none, none, none, none, "{}"⟩

/-! ## Bounded retry and process termination (C5)

`withRetry` (`src/indexer/indexPolygon.ts` lines 25-52 and
`src/indexer/indexEthereum.ts`) runs `fn` up to `MAX_RETRIES = 5` times and
re-throws the last error once attempts are exhausted.  `main` re-throws a
batch failure out of the loop, but the program entry point is
`main().catch(console.error)`: the rejection is *handled* (logged), so the
process terminates with exit status 0, not non-zero. -/

def MAX_RETRIES : Nat := 5

/-- `withRetry` from attempt number `attempt` on: run `fn attempt`; on error
retry while `attempt < MAX_RETRIES`, else re-throw the last error.  (The
backoff delays between attempts do not affect the result value and are not
modelled.) -/
def withRetryFrom {α : Type} (fn : Nat → Except String α) (attempt : Nat) :
    Except String α :=
  match fn attempt with
  | .ok v => .ok v
  | .error e =>
    if attempt < MAX_RETRIES then withRetryFrom fn (attempt + 1) else .error e
termination_by MAX_RETRIES - attempt
decreasing_by omega

/-- `withRetry(fn, context)`: attempts start at 1. -/
def withRetry {α : Type} (fn : Nat → Except String α) : Except String α :=
  withRetryFrom fn 1

/-- The settled result of the `main()` promise: rejected with the batch error
when the loop aborted, fulfilled otherwise. -/
def mainResult (cfg : IndexerConfig) (rb : Nat → Nat → Except String Unit)
    (safe cur : Nat) : Except String Unit :=
  match (ingestLoop cfg rb safe cur).failed with
  | some (_, e) => .error e
  | none => .ok ()

/-- Exit status of the indexer process.  The entry point is
`main().catch(console.error)` (`src/indexer/indexPolygon.ts` line 279,
`src/indexer/indexEthereum.ts`): a rejected `main` is caught and logged by the
handler, so the event loop drains normally and the process exits 0 in both
cases. -/
def processExitCode : Except String Unit → Nat
  | .ok _ => 0
  | .error _ => 0

/-- A concrete always-failing batch runner: every attempt of every network
call fails (e.g. `getLogs` times out on each of the 5 attempts). -/
def failingRunBatch : Nat → Nat → Except String Unit :=
  fun _ _ => .error "getLogs(1-10) failed"

/-! ## Event decoder (`src/indexer/eventDecoder.ts`)

`decodeSmartWalletEvent` and `decodeRelayEvent` first try viem's
`decodeEventLog` against the registered ABI; a throw (no registered schema
matches the log's topic) is caught.  `decodeRelayEvent`'s catch block then
checks the leading topic against the two known legacy Polygon signatures and
either decodes heuristically or skips the log, returning `[]`.  viem's
`decodeEventLog` / `decodeAbiParameters` are library code (not part of this
repository) and are passed in as abstract functions whose `none` result
models the exception the source catches. -/

/-- `TokenData` (`src/indexer/eventDecoder.ts`): the token tuple of the
Ethereum ABIs. -/
structure TokenData where
  tokenType : Nat
  tokenAddress : String
  tokenSubID : Nat
deriving DecidableEq, Repr

/-- `CommitmentPreimage` (`src/indexer/eventDecoder.ts`). -/
structure Commitment where
  npk : String
  token : TokenData
  value : Nat
deriving DecidableEq, Repr

/-- The shape of the `token` argument of a structurally decoded `Unshield`:
a plain address string (Polygon's simplified ABI), a token tuple (Ethereum),
or anything else (the code's "unknown format" branch). -/
inductive TokenArg where
  | addr (a : String)
  | tuple (t : TokenData)
  | unknownFormat
deriving DecidableEq, Repr

/-- Result of a *successful* `decodeEventLog` call: the matched event name
with its arguments.  `other` covers structurally valid events that are
neither `Shield` nor `Unshield` (e.g. `Transact`, `RelayerPayment`). -/
inductive StructuredEvent where
  | shield (treeNumber startPosition : Nat) (commitments : List Commitment)
  | unshield (toAddr : String) (token : TokenArg) (amount : Nat) (fee : Option Nat)
  | other (name : String)
deriving DecidableEq, Repr

/-- A raw chain log as the decoder sees it.  `data` is the hex payload as its
character sequence, *including* the leading `0x` (the byte-offset constants
130/106/90/154/170 in the source are positions in this string). -/
structure RawLog where
  topics : List String
  data : List Char
  blockNumber : Nat
  transactionHash : String
  logIndex : Nat
deriving DecidableEq, Repr

/-- `DecodedEvent` (`src/indexer/eventDecoder.ts`).  The `metadata` object is
modelled as a key-value list of its string fields. -/
structure DecodedEvent where
  eventName : String
  eventType : EventType
  tokenAddress : Option String
  rawAmountWei : Option String
  relayerAddress : Option String
  fromAddress : Option String
  toAddress : Option String
  metadata : List (String × String)
deriving DecidableEq, Repr

/-- `POLYGON_EVENT_SIGNATURES.UNSHIELD` (`src/indexer/configPolygon.ts`). -/
def POLYGON_UNSHIELD_SIG : String :=
  "0x49fed1d0b752ce30eee63c7a81133f3363b532fec5d4d7dd1ccfd005de4555e1"

/-- `POLYGON_EVENT_SIGNATURES.SHIELD` (`src/indexer/configPolygon.ts`). -/
def POLYGON_SHIELD_SIG : String :=
  "0x4be109453ef7e895dc7215c929fff9b76b51483d56a4d04548b4866e9aa7c5ea"

/-- ASCII lowering of one character.  `toLowerCase()` in the source is only
ever applied to hex topic strings (`0x` plus hex digits), for which Unicode
and ASCII lowercasing agree. -/
def lowerAscii (c : Char) : Char :=
  if 'A' ≤ c && c ≤ 'Z' then Char.ofNat (c.toNat + 32) else c

/-- `s.toLowerCase()` on a topic string. -/
def jsToLower (s : String) : String :=
  String.mk (s.data.map lowerAscii)

/-- `log.topics[0]?.toLowerCase()`. -/
def eventSigOf (log : RawLog) : Option String :=
  log.topics.head?.map jsToLower

/-- The `Shield` branch shared by both decoders: one deposit event per
commitment whose token is ERC-20 (`tokenType === 0`). -/
def shieldEventsFrom (treeNumber startPosition : Nat)
    (commitments : List Commitment) : List DecodedEvent :=
  (commitments.filter fun c => c.token.tokenType = 0).map fun c =>
    { eventName := "Shield"
      eventType := .deposit
      tokenAddress := some c.token.tokenAddress
      rawAmountWei := some (toString c.value)
      relayerAddress := none
      fromAddress := none
      toAddress := none
      metadata := [("treeNumber", toString treeNumber),
                   ("startPosition", toString startPosition)] }

/-- A structurally decoded `Unshield` event (`fee` rendered as
`args.fee?.toString() || '0'`). -/
def unshieldEvent (tokenAddress toAddr : String) (amount : Nat) (fee : Option Nat) :
    DecodedEvent :=
  { eventName := "Unshield"
    eventType := .withdrawal
    tokenAddress := some tokenAddress
    rawAmountWei := some (toString amount)
    relayerAddress := none
    fromAddress := none
    toAddress := some toAddr
    metadata := [("fee", (fee.map toString).getD "0")] }

/-- `decodeSmartWalletEvent` (`src/indexer/eventDecoder.ts` lines 45-101).
`structuredDecode log = none` models `decodeEventLog` throwing (no registered
schema matches); the catch block returns `[]`.  In the `Unshield` branch the
source reads `args.token.tokenType` — for an address-typed `token` (as in
`SMART_WALLET_ABI`) this is `undefined`, so `=== 0` is false and no event is
pushed; an absent `fee` would make `args.fee.toString()` throw inside the
`try`, which the catch turns into `[]`. -/
def decodeSmartWalletEvent (structuredDecode : RawLog → Option StructuredEvent)
    (log : RawLog) : List DecodedEvent :=
  match structuredDecode log with
  | some (.shield t s comms) => shieldEventsFrom t s comms
  | some (.unshield toAddr tok amount fee) =>
    match tok with
    | .tuple td =>
      if td.tokenType = 0 then
        match fee with
        | some f => [unshieldEvent td.tokenAddress toAddr amount (some f)]
        | none => []
      else []
    | _ => []
  | some (.other _) => []
  | none => []

/-- Whether a character matches `[a-fA-F0-9]`. -/
def isHexDig (c : Char) : Bool :=
  ('a' ≤ c && c ≤ 'f') || ('A' ≤ c && c ≤ 'F') || ('0' ≤ c && c ≤ '9')

/-- `'0x0000000000000000000000000000000000000000'` as a character list. -/
def ZERO_ADDR : List Char := '0' :: 'x' :: List.replicate 40 '0'

/-- The body of the candidate/scan loops of the Polygon `Shield` fallback:
given a 32-byte chunk (64 hex chars), accept it as a padded token address iff
it starts with 24 `'0'`s and `'0x' + chunk.substring(24, 64)` is a 42-char
hex address different from the zero address. -/
def addrFromChunk (chunk : List Char) : Option (List Char) :=
  if (chunk.take 24).all (· = '0') then
    if ('0' :: 'x' :: chunk.drop 24).length = 42 ∧
       (chunk.drop 24).all isHexDig ∧ ('0' :: 'x' :: chunk.drop 24) ≠ ZERO_ADDR
    then some ('0' :: 'x' :: chunk.drop 24) else none
  else none

/-- `const positions = [130, 106, 90, 154, 170]`
(`src/indexer/eventDecoder.ts` line 223). -/
def SHIELD_CANDIDATE_POSITIONS : List Nat := [130, 106, 90, 154, 170]

/-- The `for (const pos of positions)` loop: first candidate offset whose
in-bounds 64-char chunk parses as a padded address. -/
def findAtPositions (data : List Char) : List Nat → Option (List Char)
  | [] => none
  | pos :: rest =>
    if pos + 64 ≤ data.length then
      match addrFromChunk ((data.drop pos).take 64) with
      | some a => some a
      | none => findAtPositions data rest
    else findAtPositions data rest

/-- The `for (let i = 2; i < data.length - 64; i += 2)` full linear scan
(the loop guard `i < data.length - 64` is written as the equivalent
`i + 64 < data.length`, which also holds the truncated-subtraction case
`data.length < 64` correctly). -/
def linearScan (data : List Char) (i : Nat) : Option (List Char) :=
  if i + 64 < data.length then
    match addrFromChunk ((data.drop i).take 64) with
    | some a => some a
    | none => linearScan data (i + 2)
  else none
termination_by data.length - i
decreasing_by omega

/-- Token-address extraction of the Polygon `Shield` fallback: candidate
offsets first, then the full linear scan. -/
def extractShieldTokenAddress (data : List Char) : Option (List Char) :=
  match findAtPositions data SHIELD_CANDIDATE_POSITIONS with
  | some a => some a
  | none => linearScan data 2

/-- The single deposit event the Polygon `Shield` fallback emits when a token
address was recovered: amount hard-coded to `'0'` ("Amount extraction from
array structure not yet implemented") with an explanatory metadata note. -/
def shieldFallbackEvent (tokenAddress : List Char) (blockNumber : Nat) :
    DecodedEvent :=
  { eventName := "Shield"
    eventType := .deposit
    tokenAddress := some (String.mk tokenAddress)
    rawAmountWei := some "0"
    relayerAddress := none
    fromAddress := none
    toAddress := none
    metadata := [("note", "Polygon Shield - amount set to 0, structure too complex"),
                 ("blockNumber", toString blockNumber)] }

/-- `decodeRelayEvent` (`src/indexer/eventDecoder.ts` lines 103-289).
`structuredDecode` models `decodeEventLog` against the passed ABI
(`none` = throw), `decodeUnshieldParams` models
`decodeAbiParameters(address,address,uint256,uint256)` on the raw data
(`none` = throw, caught and turned into `[]`). -/
def decodeRelayEvent (structuredDecode : RawLog → Option StructuredEvent)
    (decodeUnshieldParams : List Char → Option (String × String × Nat × Nat))
    (log : RawLog) : List DecodedEvent :=
  match structuredDecode log with
  | some (.shield t s comms) => shieldEventsFrom t s comms
  | some (.unshield toAddr tok amount fee) =>
    match tok with
    | .addr a => [unshieldEvent a toAddr amount fee]
    | .tuple td =>
      if td.tokenType ≠ 0 then [] else [unshieldEvent td.tokenAddress toAddr amount fee]
    | .unknownFormat => []
  | some (.other _) => []
  | none =>
    if eventSigOf log = some POLYGON_UNSHIELD_SIG ∧ 130 < log.data.length then
      match decodeUnshieldParams log.data with
      | some (toAddr, token, amount, fee) =>
        [{ eventName := "Unshield"
           eventType := .withdrawal
           tokenAddress := some token
           rawAmountWei := some (toString amount)
           relayerAddress := none
           fromAddress := none
           toAddress := some toAddr
           metadata := [("fee", toString fee)] }]
      | none => []
    else if eventSigOf log = some POLYGON_SHIELD_SIG ∧ 200 < log.data.length then
      match extractShieldTokenAddress log.data with
      | some a => [shieldFallbackEvent a log.blockNumber]
      | none => []
    else []

/-- Concrete Polygon `Shield` payload for the C8 witness: `0x`, 128 filler
hex chars, then a 32-byte word holding a padded non-zero address, then
padding (204 chars in total). -/
def sampleShieldData : List Char :=
  '0' :: 'x' :: (List.replicate 128 'b' ++
    (List.replicate 24 '0' ++ (List.replicate 40 'a' ++ List.replicate 10 'c')))

/-! ## Normalized amount (C6)

In both indexers (`src/indexer/indexPolygon.ts` lines 183-189 and
`src/indexer/indexEthereum.ts`):

```
let amountNormalized: number | null = null;
if (decoded.rawAmountWei && tokenId) {
  const token = await db.select()...get();
  if (token?.decimals) {
    amountNormalized = Number(BigInt(decoded.rawAmountWei)) / Math.pow(10, token.decimals);
  }
}
```

`tokenId` and `token?.decimals` are tested for JavaScript *truthiness*: the
numeric value `0` is falsy. -/

/-- A row of the `tokens` table as the normalization step reads it. -/
structure TokenRow where
  symbol : Option String
  decimals : Option Nat
deriving DecidableEq, Repr

/-- The normalized-amount computation.  `rawAmountWei` is the raw bigint
decimal string (`none` = null; the string is never empty, so its truthiness
is its presence), `tokenId` the resolved token id (`none` = null, and the
numeric id `0` is falsy), `tokens` the `tokens`-table lookup by id
(`token?.decimals` short-circuits on a missing row or null column, and a
stored `0` is falsy).  Float division is idealized as exact division in `ℚ`. -/
def computeAmountNormalized (rawAmountWei : Option Nat) (tokenId : Option Nat)
    (tokens : Nat → Option TokenRow) : Option ℚ :=
  match rawAmountWei, tokenId with
  | some raw, some tid =>
    if tid ≠ 0 then
      match tokens tid with
      | some tk =>
        match tk.decimals with
        | some d => if d ≠ 0 then some ((raw : ℚ) / 10 ^ d) else none
        | none => none
      | none => none
    else none
  | _, _ => none

/-! ## Daily flow aggregation (C3) — `src/analytics/dailyFlows.ts`

`computeDailyFlows` deletes all `daily_flows` rows, then queries
`events` grouped by `(date(blockTimestamp,'unixepoch'), chain, tokenId)`
restricted to `eventType in ('deposit','withdrawal') and tokenId is not
null`, computing `sum(case when deposit then amountNormalized else 0)`,
the analogous withdrawal sum, and the two row counts.  Groups whose combined
count is below `MIN_TX_THRESHOLD = 3` are skipped; the rest are inserted with
`netFlow = totalDeposits - totalWithdrawals`.  In SQLite, `SUM` ignores the
`NULL` produced by `CASE` when `amountNormalized` is null, and the JS
`|| 0` maps an all-`NULL` sum to 0 — so a null amount contributes 0. -/

/-- `date(ts, 'unixepoch')`: the calendar-day bucket, modelled as day number
`ts / 86400`. -/
def dateOf (ts : Nat) : Nat := ts / 86400

/-- A `(date, chain, tokenId)` grouping key. -/
structure FlowKey where
  date : Nat
  chain : String
  tokenId : Nat
deriving DecidableEq, Repr

/-- The SQL `WHERE` filter:
`eventType in ('deposit', 'withdrawal') and tokenId is not null`. -/
def flowRelevant (e : EventRow) : Bool :=
  (e.eventType = EventType.deposit || e.eventType = EventType.withdrawal)
    && e.tokenId.isSome

/-- The grouping key of a (flow-relevant) event. -/
def flowKeyOf (e : EventRow) : FlowKey :=
  ⟨dateOf e.blockTimestamp, e.chain, e.tokenId.getD 0⟩

/-- The group of flow-relevant events with key `k`. -/
def flowGroup (evs : List EventRow) (k : FlowKey) : List EventRow :=
  (evs.filter flowRelevant).filter fun e => flowKeyOf e = k

/-- `sum(case when eventType = 'deposit' then amountNormalized else 0 end)`
(with `|| 0`): a null amount contributes 0. -/
def totalDeposits (evs : List EventRow) (k : FlowKey) : ℚ :=
  (((flowGroup evs k).filter fun e => e.eventType = EventType.deposit).map
    fun e => e.amountNormalized.getD 0).sum

/-- The withdrawal analogue of `totalDeposits`. -/
def totalWithdrawals (evs : List EventRow) (k : FlowKey) : ℚ :=
  (((flowGroup evs k).filter fun e => e.eventType = EventType.withdrawal).map
    fun e => e.amountNormalized.getD 0).sum

/-- `sum(case when eventType = 'deposit' then 1 else 0 end)`. -/
def depositTxCount (evs : List EventRow) (k : FlowKey) : Nat :=
  ((flowGroup evs k).filter fun e => e.eventType = EventType.deposit).length

/-- `sum(case when eventType = 'withdrawal' then 1 else 0 end)`. -/
def withdrawalTxCount (evs : List EventRow) (k : FlowKey) : Nat :=
  ((flowGroup evs k).filter fun e => e.eventType = EventType.withdrawal).length

/-- A row of the `daily_flows` table (`src/db/schema.ts`). -/
structure DailyFlowRow where
  date : Nat
  chain : String
  tokenId : Nat
  totalDeposits : ℚ
  totalWithdrawals : ℚ
  netFlow : ℚ
  depositTxCount : Nat
  withdrawalTxCount : Nat
deriving DecidableEq, Repr

/-- `const MIN_TX_THRESHOLD = 3` (`src/analytics/dailyFlows.ts`). -/
def MIN_TX_THRESHOLD : Nat := 3

/-- The distinct grouping keys the SQL `GROUP BY` produces (each key of at
least one flow-relevant event, once). -/
def flowKeys (evs : List EventRow) : List FlowKey :=
  ((evs.filter flowRelevant).map flowKeyOf).dedup

/-- The loop body of `computeDailyFlows` for one group: skip when
`!flow.tokenId` (JS falsy — id 0), skip when the combined count is below the
cohort threshold, otherwise insert the aggregate row
(`chain: flow.chain || 'ethereum'`). -/
def flowRowFor (evs : List EventRow) (k : FlowKey) : Option DailyFlowRow :=
  if k.tokenId = 0 then none
  else if depositTxCount evs k + withdrawalTxCount evs k < MIN_TX_THRESHOLD then none
  else some
    { date := k.date
      chain := if k.chain = "" then "ethereum" else k.chain
      tokenId := k.tokenId
      totalDeposits := totalDeposits evs k
      totalWithdrawals := totalWithdrawals evs k
      netFlow := totalDeposits evs k - totalWithdrawals evs k
      depositTxCount := depositTxCount evs k
      withdrawalTxCount := withdrawalTxCount evs k }

/-- The full recomputation: the table contents after one run of
`computeDailyFlows` over the raw event list (the run starts by deleting all
existing rows, so the result replaces the table). -/
def computeDailyFlows (evs : List EventRow) : List DailyFlowRow :=
  (flowKeys evs).filterMap (flowRowFor evs)

/-- The grouping key stored in a `daily_flows` row. -/
def rowFlowKey (r : DailyFlowRow) : FlowKey := ⟨r.date, r.chain, r.tokenId⟩

/-- The deposit event of the end-to-end scenario: token 7, normalized 5. -/
def scenarioDeposit : EventRow :=
  ⟨"ethereum", "0xd1", 0, 1, 8640000, "Relay", "Shield", EventType.deposit,
    some 7, some 5000000000000000000, some 5, none, none, none, "{}"⟩

/-- First scenario withdrawal: token 7, normalized 20. -/
def scenarioWithdrawal1 : EventRow :=
  ⟨"ethereum", "0xw1", 100, 2, 8640010, "Relay", "Unshield", EventType.withdrawal,
    some 7, some 20000000000000000000, some 20, some "0xrelayer", none, none, "{}"⟩

/-- Second scenario withdrawal: token 7, normalized 30. -/
def scenarioWithdrawal2 : EventRow :=
  ⟨"ethereum", "0xw2", 200, 3, 8640020, "Relay", "Unshield", EventType.withdrawal,
    some 7, some 30000000000000000000, some 30, some "0xrelayer", none, none, "{}"⟩

/-! ## Relayer concentration stats (C9) — `src/analytics/relayerStats.ts`

For each `(date, chain)` group, `computeRelayerStats` receives one entry per
relayer (volume = `sum(amountNormalized)` of that relayer's withdrawals that
day, txCount = `count(*)`), sorts the entries by volume descending
(`relayers.sort((a, b) => b.volume - a.volume)`), sums the first five volumes
for the top-5 share, and accumulates squared volume shares for the HHI;
both are 0 when the total volume is not positive. -/

/-- One per-relayer aggregate of a `(date, chain)` group. -/
structure RelayerEntry where
  relayer : String
  volume : ℚ
  txCount : Nat
deriving DecidableEq, Repr

/-- A row of `relayer_stats_daily` (without the `(date, chain)` key, which is
the group's key). -/
structure RelayerStatsRow where
  numActiveRelayers : Nat
  top5Share : ℚ
  hhi : ℚ
  relayerTxCount : Nat
deriving DecidableEq, Repr

/-- `relayers.sort((a, b) => b.volume - a.volume)`: sort by volume,
descending.  (JS `Array.sort` is modelled by insertion sort; any order
consistent with the comparator yields the same take-5 volume sum and the same
share multiset.) -/
def relayerSortDesc (rs : List RelayerEntry) : List RelayerEntry :=
  rs.insertionSort fun a b => b.volume ≤ a.volume

/-- `relayers.reduce((sum, r) => sum + r.volume, 0)`. -/
def totalVolume (rs : List RelayerEntry) : ℚ :=
  (rs.map RelayerEntry.volume).sum

/-- `relayers.slice(0, 5).reduce((sum, r) => sum + r.volume, 0)` on the
descending-sorted array. -/
def top5Volume (rs : List RelayerEntry) : ℚ :=
  (((relayerSortDesc rs).take 5).map RelayerEntry.volume).sum

/-- The stats row computed for one `(date, chain)` group. -/
def computeRelayerDayStats (rs : List RelayerEntry) : RelayerStatsRow :=
  { numActiveRelayers := rs.length
    top5Share := if 0 < totalVolume rs then top5Volume rs / totalVolume rs else 0
    hhi := if 0 < totalVolume rs then
        ((relayerSortDesc rs).map fun r => (r.volume / totalVolume rs) ^ 2).sum
      else 0
    relayerTxCount := (rs.map RelayerEntry.txCount).sum }

-- Helper lemmas for the insert semantics.

theorem hasKey_insertIgnore (db : List EventRow) (e : EventRow) (k : EventKey)
    (h : hasKey db k) : hasKey (insertIgnore db e) k := by
  unfold insertIgnore
  split
  · exact h
  · unfold hasKey at h ⊢
    simp only [List.any_append, Bool.or_eq_true]
    exact Or.inl h

theorem hasKey_persistBatch (db : List EventRow) (es : List EventRow) (k : EventKey)
    (h : hasKey db k) : hasKey (persistBatch db es) k := by
  induction es generalizing db with
  | nil => exact h
  | cons e es ih => exact ih _ (hasKey_insertIgnore db e k h)

theorem hasKey_self_insertIgnore (db : List EventRow) (e : EventRow) :
    hasKey (insertIgnore db e) e.key := by
  unfold insertIgnore
  split
  · assumption
  · unfold hasKey
    simp

theorem hasKey_of_mem_persistBatch (db : List EventRow) (es : List EventRow)
    (e : EventRow) (he : e ∈ es) : hasKey (persistBatch db es) e.key := by
  induction es generalizing db with
  | nil => cases he
  | cons a as ih =>
    rcases List.mem_cons.mp he with he | he
    · subst he
      exact hasKey_persistBatch _ as _ (hasKey_self_insertIgnore db e)
    · exact ih _ he

theorem insertIgnore_of_hasKey (db : List EventRow) (e : EventRow)
    (h : hasKey db e.key) : insertIgnore db e = db := by
  unfold insertIgnore
  simp [h]

theorem persistBatch_of_all_present (db : List EventRow) (es : List EventRow)
    (h : ∀ e ∈ es, hasKey db e.key) : persistBatch db es = db := by
  induction es with
  | nil => rfl
  | cons a as ih =>
    show persistBatch (insertIgnore db a) as = db
    rw [insertIgnore_of_hasKey db a (h a (by simp))]
    exact ih fun e he => h e (by simp [he])

/-- **C1.** For every block range, running the Ingestion Loop twice over the
same range (a restart before the checkpoint advances) yields the same set of
persisted `RawEvent` rows as running it once: re-inserting an event whose
`(network, tx hash, stored log index)` key is already present is a no-op
(`onConflictDoNothing` against the `txLogUnique` constraint), so no duplicate
rows are created.  The same block range deterministically decodes to the same
list `es` of events, so the restarted run replays exactly `es`. -/
theorem C1_idempotent_replay (db : List EventRow) (es : List EventRow) :
    (∀ e : EventRow, hasKey db e.key → insertIgnore db e = db) ∧
    persistBatch (persistBatch db es) es = persistBatch db es := by
  refine ⟨fun e h => insertIgnore_of_hasKey db e h, ?_⟩
  exact persistBatch_of_all_present _ es fun e he => hasKey_of_mem_persistBatch db es e he

/-- Witness for C1 at a concrete store and batch. -/
theorem C1_idempotent_replay_witness :
    insertIgnore [] ⟨"polygon", "0xaa", 100, 7, 0, "Relay", "Unshield",
      EventType.withdrawal, none, none, none, none, none, none, "{}"⟩ ≠ [] ∧
    persistBatch (persistBatch []
      [⟨"polygon", "0xaa", 100, 7, 0, "Relay", "Unshield",
        EventType.withdrawal, none, none, none, none, none, none, "{}"⟩])
      [⟨"polygon", "0xaa", 100, 7, 0, "Relay", "Unshield",
        EventType.withdrawal, none, none, none, none, none, none, "{}"⟩]
      = persistBatch []
      [⟨"polygon", "0xaa", 100, 7, 0, "Relay", "Unshield",
        EventType.withdrawal, none, none, none, none, none, none, "{}"⟩] := by
  constructor
  · decide
  · exact (C1_idempotent_replay []
      [⟨"polygon", "0xaa", 100, 7, 0, "Relay", "Unshield",
        EventType.withdrawal, none, none, none, none, none, none, "{}"⟩]).2

/-- **C10, counterexample.** The claim asserts that stored keys never alias
"regardless of how many sub-entries a log contains".  False: with 101
sub-entries, sub-entry 100 of the log at log index 0 collides with sub-entry 0
of the log at log index 1 in the same transaction — `0 * 100 + 100 = 100 =
1 * 100 + 0`, so the two distinct (log, sub-entry) pairs get identical stored
`(network, tx hash, log-index-with-sub-index)` keys. -/
theorem C10_counterexample :
    storedKey "polygon" "0xtx" 0 100 = storedKey "polygon" "0xtx" 1 0 ∧
    ((0, 100) : Nat × Nat) ≠ (1, 0) := by
  constructor
  · decide
  · decide

/-- **C10, amended.** The sub-index assigned to each `DecodedEvent` of a
multi-entry log is the deterministic function `logIndex * 100 + position`, and
*provided every log has fewer than 100 sub-entries* the stored identifiers do
not alias: for any two distinct (log, sub-entry) pairs within the same
transaction with both sub-entries below 100, the stored
`(network, tx hash, log-index-with-sub-index)` keys differ. -/
theorem C10_subindex_no_alias (chain txHash : String)
    (l₁ i₁ l₂ i₂ : Nat) (h₁ : i₁ < 100) (h₂ : i₂ < 100)
    (hne : (l₁, i₁) ≠ (l₂, i₂)) :
    storedKey chain txHash l₁ i₁ ≠ storedKey chain txHash l₂ i₂ := by
  intro h
  apply hne
  have hidx : storedLogIndex l₁ i₁ = storedLogIndex l₂ i₂ :=
    congrArg EventKey.logIndex h
  unfold storedLogIndex at hidx
  have : l₁ = l₂ ∧ i₁ = i₂ := by omega
  simp [this.1, this.2]

/-- Witness for C10's amended theorem at concrete sub-entries. -/
theorem C10_subindex_no_alias_witness :
    storedKey "polygon" "0xtx" 0 1 ≠ storedKey "polygon" "0xtx" 1 0 :=
  C10_subindex_no_alias "polygon" "0xtx" 0 1 1 0 (by decide) (by decide) (by decide)

theorem nextToBlock_lt (cfg : IndexerConfig) (safe cur : Nat) (h : cur < safe) :
    cur < nextToBlock cfg safe cur ∧ nextToBlock cfg safe cur ≤ safe := by
  have hb := cfg.batchSize_pos
  unfold nextToBlock
  split <;> omega

theorem ingestLoop_writes_eq_batches (cfg : IndexerConfig)
    (rb : Nat → Nat → Except String Unit) (safe cur : Nat) :
    (ingestLoop cfg rb safe cur).writes
      = (ingestLoop cfg rb safe cur).batches.map Prod.snd := by
  induction cur using ingestLoop.induct cfg rb safe with
  | case1 x hx a heq ih =>
    rw [ingestLoop]
    simp only [if_pos hx, heq]
    simpa using ih
  | case2 x hx e heq =>
    rw [ingestLoop]
    simp [if_pos hx, heq]
  | case3 x hx =>
    rw [ingestLoop]
    simp [if_neg hx]

theorem ingestLoop_writes_bounds (cfg : IndexerConfig)
    (rb : Nat → Nat → Except String Unit) (safe cur : Nat) :
    ∀ w ∈ (ingestLoop cfg rb safe cur).writes, cur < w ∧ w ≤ safe := by
  induction cur using ingestLoop.induct cfg rb safe with
  | case1 x hx a heq ih =>
    rw [ingestLoop]
    simp only [if_pos hx, heq]
    intro w hw
    rcases List.mem_cons.mp hw with hw | hw
    · subst hw
      exact nextToBlock_lt cfg safe x hx
    · have := ih w hw
      have := (nextToBlock_lt cfg safe x hx).1
      omega
  | case2 x hx e heq =>
    rw [ingestLoop]
    simp [if_pos hx, heq]
  | case3 x hx =>
    rw [ingestLoop]
    simp [if_neg hx]

theorem ingestLoop_writes_chain (cfg : IndexerConfig)
    (rb : Nat → Nat → Except String Unit) (safe cur : Nat) :
    List.Chain' (· < ·) (ingestLoop cfg rb safe cur).writes := by
  induction cur using ingestLoop.induct cfg rb safe with
  | case1 x hx a heq ih =>
    rw [ingestLoop]
    simp only [if_pos hx, heq]
    refine List.chain'_cons'.mpr ⟨?_, ih⟩
    intro y hy
    have hmem : y ∈ (ingestLoop cfg rb safe (nextToBlock cfg safe x)).writes :=
      List.mem_of_mem_head? hy
    exact (ingestLoop_writes_bounds cfg rb safe (nextToBlock cfg safe x) y hmem).1
  | case2 x hx e heq =>
    rw [ingestLoop]
    simp [if_pos hx, heq]
  | case3 x hx =>
    rw [ingestLoop]
    simp [if_neg hx]

/-- The range of the failed batch, if any, starts right after the last stored
checkpoint (or the initial block when nothing was stored) and ends at the
`toBlock` the next run would compute again — so a restart retries the
identical range. -/
theorem ingestLoop_failed_range (cfg : IndexerConfig)
    (rb : Nat → Nat → Except String Unit) (safe cur : Nat) :
    ∀ fb, (ingestLoop cfg rb safe cur).failed = some fb →
      fb.1.1 = ((ingestLoop cfg rb safe cur).writes.getLast?.getD cur) + 1 ∧
      fb.1.2 = nextToBlock cfg safe
        ((ingestLoop cfg rb safe cur).writes.getLast?.getD cur) := by
  induction cur using ingestLoop.induct cfg rb safe with
  | case1 x hx a heq ih =>
    rw [ingestLoop]
    simp only [if_pos hx, heq]
    intro fb hfb
    have := ih fb hfb
    simpa [List.getLast?_cons] using this
  | case2 x hx e heq =>
    rw [ingestLoop]
    simp only [if_pos hx, heq]
    intro fb hfb
    cases hfb
    simp
  | case3 x hx =>
    rw [ingestLoop]
    simp [if_neg hx]

/-- **C2.** Across any sequence of Ingestion Loop iterations for one network,
the stored checkpoint value never decreases (the sequence of
`setLastIndexedBlock` writes is monotone — in fact strictly increasing, and
every write exceeds the starting block), after the Nth successful batch it
equals the upper block bound of the Nth batch (the write list is exactly the
list of upper bounds of the successful batches, in order), and the checkpoint
is written only after that batch's persist succeeds (a failed batch
contributes no write). -/
theorem C2_checkpoint_monotonic (cfg : IndexerConfig)
    (rb : Nat → Nat → Except String Unit) (safe cur : Nat) :
    List.Chain' (· ≤ ·) (ingestLoop cfg rb safe cur).writes ∧
    (ingestLoop cfg rb safe cur).writes
      = (ingestLoop cfg rb safe cur).batches.map Prod.snd ∧
    (∀ w ∈ (ingestLoop cfg rb safe cur).writes, cur < w) := by
  refine ⟨?_, ingestLoop_writes_eq_batches cfg rb safe cur, ?_⟩
  · exact (ingestLoop_writes_chain cfg rb safe cur).imp fun a b h => Nat.le_of_lt h
  · exact fun w hw => (ingestLoop_writes_bounds cfg rb safe cur w hw).1

theorem chunks100_flatten {α : Type} (l : List α) : (chunks100 l).flatten = l := by
  induction l using chunks100.induct with
  | case1 => simp [chunks100]
  | case2 a t ih =>
    simp only [chunks100, List.flatten_cons, ih, List.take_append_drop]

/-- **C4, counterexample.** The claim asserts that *every* configured
network's indexer persists all decoded events of a batch inside a single
atomic store transaction.  False for the Ethereum indexer
(`src/indexer/indexEthereum.ts`): a batch that decodes to two events is
persisted by two separate single-insert transactions, not one. -/
theorem C4_counterexample :
    (ethereumPersistTxns [sampleRow 0, sampleRow 1]).length = 2 ∧
    ¬ (ethereumPersistTxns [sampleRow 0, sampleRow 1]).length = 1 := by
  constructor
  · rfl
  · decide

/-- **C4, amended.** For every batch of the *Polygon* indexer, all decoded
events are persisted inside a single atomic store transaction with
no-op-on-duplicate insert semantics (one `db.transaction` whose chunked
statements cover exactly the batch's events; no transaction at all when the
batch is empty).  The *Ethereum* indexer instead issues one individual
idempotent insert per decoded event — atomic only per event, not per batch —
still covering exactly the batch's events.  For both loops the checkpoint is
advanced only after the batch's persist step has completed successfully (the
checkpoint writes are exactly the upper bounds of the successfully persisted
batches). -/
theorem C4_atomic_persist (es : List EventRow) :
    (es ≠ [] → polygonPersistTxns es = [⟨chunks100 es⟩] ∧
      (PersistTxn.mk (chunks100 es)).rows = es) ∧
    polygonPersistTxns [] = [] ∧
    (ethereumPersistTxns es).length = es.length ∧
    ((ethereumPersistTxns es).map PersistTxn.rows).flatten = es ∧
    (∀ (cfg : IndexerConfig) (rb : Nat → Nat → Except String Unit) (safe cur : Nat),
      (ingestLoop cfg rb safe cur).writes
        = (ingestLoop cfg rb safe cur).batches.map Prod.snd) := by
  refine ⟨?_, rfl, ?_, ?_, ?_⟩
  · intro h
    have hlen : es.length > 0 := List.length_pos.mpr h
    exact ⟨by simp [polygonPersistTxns, hlen], by simp [PersistTxn.rows, chunks100_flatten]⟩
  · simp [ethereumPersistTxns]
  · induction es with
    | nil => rfl
    | cons a as ih => simp_all [ethereumPersistTxns, PersistTxn.rows]
  · exact ingestLoop_writes_eq_batches

/-- Witness for C4's amended theorem at a concrete two-event batch. -/
theorem C4_atomic_persist_witness :
    (PersistTxn.mk (chunks100 [sampleRow 0, sampleRow 1])).rows
      = [sampleRow 0, sampleRow 1] ∧
    polygonPersistTxns [sampleRow 0, sampleRow 1]
      = [⟨chunks100 [sampleRow 0, sampleRow 1]⟩] := by
  have h := (C4_atomic_persist [sampleRow 0, sampleRow 1]).1 (by simp)
  exact ⟨h.2, h.1⟩

theorem withRetryFrom_error {α : Type} (fn : Nat → Except String α)
    (es : Nat → String) (hfn : ∀ a, fn a = .error (es a)) :
    ∀ attempt, 1 ≤ attempt → attempt ≤ MAX_RETRIES →
      withRetryFrom fn attempt = .error (es MAX_RETRIES) := by
  intro attempt h1 h5
  induction attempt using withRetryFrom.induct fn with
  | case1 a v heq => rw [hfn] at heq; cases heq
  | case2 a e heq hlt ih =>
    rw [withRetryFrom, hfn]
    dsimp only
    rw [if_pos hlt]
    exact ih (by omega) (by omega)
  | case3 a e heq hlt =>
    rw [withRetryFrom, hfn]
    dsimp only
    rw [if_neg hlt]
    have : a = MAX_RETRIES := by omega
    rw [this]

/-- **C5, counterexample.** The claim asserts the indexer task terminates
with a *non-zero* exit status after retries are exhausted.  In the code the
entry point is `main().catch(console.error)`, which handles the rejection:
on a run whose first batch fails, the error does propagate out of the loop
and no checkpoint is written, but the process exit status is 0. -/
theorem C5_counterexample :
    (ingestLoop ⟨500, by decide⟩ failingRunBatch 10 0).writes = [] ∧
    mainResult ⟨500, by decide⟩ failingRunBatch 10 0
      = .error "getLogs(1-10) failed" ∧
    processExitCode (mainResult ⟨500, by decide⟩ failingRunBatch 10 0) = 0 := by
  have hm : mainResult ⟨500, by decide⟩ failingRunBatch 10 0
      = .error "getLogs(1-10) failed" := by
    rw [mainResult, ingestLoop]
    simp [failingRunBatch]
  refine ⟨?_, hm, by rw [hm]; rfl⟩
  rw [ingestLoop]
  simp [failingRunBatch]

/-- **C5, amended.** If the bounded retries for a batch are exhausted
(`withRetry` returns the last of the `MAX_RETRIES = 5` errors), the error
propagates out of the loop and `main`'s promise is rejected with it, while
the stored checkpoint is left unadvanced — the failed batch contributes no
checkpoint write, and its range starts right after the last stored checkpoint
and ends at the `toBlock` the next run recomputes, so the next run retries
the identical block range.  However, the entry point
`main().catch(console.error)` handles the rejection, so the process exits
with status 0 rather than non-zero. -/
theorem C5_retry_exhaustion (cfg : IndexerConfig)
    (rb : Nat → Nat → Except String Unit) (safe cur : Nat) :
    (∀ (fn : Nat → Except String Unit) (es : Nat → String),
      (∀ a, fn a = .error (es a)) → withRetry fn = .error (es MAX_RETRIES)) ∧
    (∀ fb, (ingestLoop cfg rb safe cur).failed = some fb →
      mainResult cfg rb safe cur = .error fb.2 ∧
      fb.1.1 = ((ingestLoop cfg rb safe cur).writes.getLast?.getD cur) + 1 ∧
      fb.1.2 = nextToBlock cfg safe
        ((ingestLoop cfg rb safe cur).writes.getLast?.getD cur) ∧
      processExitCode (mainResult cfg rb safe cur) = 0) := by
  constructor
  · intro fn es hfn
    exact withRetryFrom_error fn es hfn 1 (by omega) (by decide)
  · intro fb hfb
    have hr := ingestLoop_failed_range cfg rb safe cur fb hfb
    have hm : mainResult cfg rb safe cur = .error fb.2 := by
      rw [mainResult, hfb]
    exact ⟨hm, hr.1, hr.2, by rw [hm]; rfl⟩

/-- Witness for C5's amended theorem on a concrete failing run. -/
theorem C5_retry_exhaustion_witness :
    withRetry (fun _ => (.error "timeout" : Except String Unit))
      = .error "timeout" ∧
    mainResult ⟨500, by decide⟩ failingRunBatch 10 0
      = .error "getLogs(1-10) failed" := by
  have h := C5_retry_exhaustion ⟨500, by decide⟩ failingRunBatch 10 0
  constructor
  · exact h.1 (fun _ => .error "timeout") (fun _ => "timeout") (fun _ => rfl)
  · refine (h.2 ((1, 10), "getLogs(1-10) failed") ?_).1
    rw [ingestLoop]
    simp [failingRunBatch, nextToBlock]

/-- **C7.** For every raw log whose leading topic matches no registered
structured schema (so `decodeEventLog` throws, modelled by
`structuredDecode log = none`) and no known legacy signature, both decoders
return the empty `DecodedEvent` list.  Both decoders are total Lean
functions, so no exception escapes the decoder boundary. -/
theorem C7_unknown_log_skipped (structuredDecode : RawLog → Option StructuredEvent)
    (decodeUnshieldParams : List Char → Option (String × String × Nat × Nat))
    (log : RawLog)
    (hsd : structuredDecode log = none)
    (hun : eventSigOf log ≠ some POLYGON_UNSHIELD_SIG)
    (hsh : eventSigOf log ≠ some POLYGON_SHIELD_SIG) :
    decodeRelayEvent structuredDecode decodeUnshieldParams log = [] ∧
    decodeSmartWalletEvent structuredDecode log = [] := by
  constructor
  · rw [decodeRelayEvent, hsd]
    simp [hun, hsh]
  · rw [decodeSmartWalletEvent, hsd]

/-- Witness for C7 on a concrete log with an unknown leading topic. -/
theorem C7_unknown_log_skipped_witness :
    decodeRelayEvent (fun _ => none) (fun _ => none)
      ⟨["0xdeadbeef"], [], 3, "0xtx", 0⟩ = [] ∧
    decodeSmartWalletEvent (fun _ => none) ⟨["0xdeadbeef"], [], 3, "0xtx", 0⟩ = [] :=
  C7_unknown_log_skipped (fun _ => none) (fun _ => none)
    ⟨["0xdeadbeef"], [], 3, "0xtx", 0⟩ rfl (by decide) (by decide)

-- Any address recovered by the fallback scan is well-formed: 42 chars,
-- `0x`-prefixed, hex digits only, and not the zero address.

theorem addrFromChunk_valid (chunk a : List Char)
    (h : addrFromChunk chunk = some a) :
    a.length = 42 ∧ a ≠ ZERO_ADDR ∧ (a.drop 2).all isHexDig ∧
    a.take 2 = ['0', 'x'] := by
  unfold addrFromChunk at h
  split at h
  · split at h
    · rename_i hcond
      cases h
      exact ⟨hcond.1, hcond.2.2, hcond.2.1, rfl⟩
    · cases h
  · cases h

theorem findAtPositions_valid (data : List Char) (ps : List Nat) (a : List Char)
    (h : findAtPositions data ps = some a) :
    a.length = 42 ∧ a ≠ ZERO_ADDR ∧ (a.drop 2).all isHexDig ∧
    a.take 2 = ['0', 'x'] := by
  induction ps with
  | nil => cases h
  | cons p rest ih =>
    rw [findAtPositions] at h
    split at h
    · split at h
      · rename_i heq
        cases h
        exact addrFromChunk_valid _ _ heq
      · exact ih h
    · exact ih h

theorem linearScan_valid (data : List Char) (i : Nat) (a : List Char)
    (h : linearScan data i = some a) :
    a.length = 42 ∧ a ≠ ZERO_ADDR ∧ (a.drop 2).all isHexDig ∧
    a.take 2 = ['0', 'x'] := by
  induction i using linearScan.induct data with
  | case1 i hi a' heq =>
    rw [linearScan, if_pos hi, heq] at h
    cases h
    exact addrFromChunk_valid _ _ heq
  | case2 i hi heq ih =>
    rw [linearScan, if_pos hi, heq] at h
    exact ih h
  | case3 i hi =>
    rw [linearScan, if_neg hi] at h
    cases h

theorem extractShieldTokenAddress_valid (data : List Char) (a : List Char)
    (h : extractShieldTokenAddress data = some a) :
    a.length = 42 ∧ a ≠ ZERO_ADDR ∧ (a.drop 2).all isHexDig ∧
    a.take 2 = ['0', 'x'] := by
  unfold extractShieldTokenAddress at h
  split at h
  · rename_i heq
    cases h
    exact findAtPositions_valid _ _ _ heq
  · exact linearScan_valid _ _ _ h

/-- **C8.** For every log taken by the legacy Polygon `Shield` fallback path
(structured decoding threw, leading topic is the known legacy `Shield`
signature, payload long enough): when a valid token address is recovered —
and the fallback never attempts amount extraction ("Amount extraction from
array structure not yet implemented") — the decoder still emits the event,
with its amount recorded as the string `'0'`, a metadata `note` flagging the
incomplete extraction, and no fabricated `fee` entry; the recovered address
is a well-formed non-zero 42-char hex address.  When no address is recovered
the log is skipped. -/
theorem C8_fallback_zero_amount (structuredDecode : RawLog → Option StructuredEvent)
    (decodeUnshieldParams : List Char → Option (String × String × Nat × Nat))
    (log : RawLog)
    (hsd : structuredDecode log = none)
    (hsh : eventSigOf log = some POLYGON_SHIELD_SIG)
    (hlen : 200 < log.data.length) :
    (extractShieldTokenAddress log.data = none →
      decodeRelayEvent structuredDecode decodeUnshieldParams log = []) ∧
    (∀ a, extractShieldTokenAddress log.data = some a →
      decodeRelayEvent structuredDecode decodeUnshieldParams log
        = [shieldFallbackEvent a log.blockNumber] ∧
      (shieldFallbackEvent a log.blockNumber).rawAmountWei = some "0" ∧
      (shieldFallbackEvent a log.blockNumber).metadata.lookup "note"
        = some "Polygon Shield - amount set to 0, structure too complex" ∧
      (shieldFallbackEvent a log.blockNumber).metadata.lookup "fee" = none ∧
      a.length = 42 ∧ a ≠ ZERO_ADDR ∧ (a.drop 2).all isHexDig) := by
  have hnotun : ¬ (eventSigOf log = some POLYGON_UNSHIELD_SIG ∧ 130 < log.data.length) := by
    rintro ⟨h, -⟩
    rw [hsh] at h
    exact absurd h (by decide)
  constructor
  · intro hnone
    rw [decodeRelayEvent, hsd]
    simp only [if_neg hnotun, if_pos (And.intro hsh hlen), hnone]
  · intro a ha
    have hv := extractShieldTokenAddress_valid log.data a ha
    refine ⟨?_, rfl, rfl, rfl, hv.1, hv.2.1, hv.2.2.1⟩
    rw [decodeRelayEvent, hsd]
    simp only [if_neg hnotun, if_pos (And.intro hsh hlen), ha]

set_option maxRecDepth 10000 in
/-- Witness for C8 on a concrete legacy `Shield` log: the event is emitted
with amount `'0'` and the metadata note. -/
theorem C8_fallback_zero_amount_witness :
    decodeRelayEvent (fun _ => none) (fun _ => none)
      ⟨[POLYGON_SHIELD_SIG], sampleShieldData, 5, "0xtx", 0⟩
      = [shieldFallbackEvent ('0' :: 'x' :: List.replicate 40 'a') 5] ∧
    (shieldFallbackEvent ('0' :: 'x' :: List.replicate 40 'a') 5).rawAmountWei
      = some "0" := by
  have h := (C8_fallback_zero_amount (fun _ => none) (fun _ => none)
    ⟨[POLYGON_SHIELD_SIG], sampleShieldData, 5, "0xtx", 0⟩ rfl (by decide) (by decide)).2
    ('0' :: 'x' :: List.replicate 40 'a') (by decide)
  exact ⟨h.1, h.2.1⟩

/-- **C6, counterexample.** The claim asserts the stored normalized amount
equals `raw / 10^decimals` whenever the token's decimal precision is known,
*including a known precision of 0*, and is null exactly when the precision is
unknown.  False: `if (token?.decimals)` tests truthiness, and the number `0`
is falsy — for a token with known `decimals = 0` and raw amount `5` the code
stores null, although the claim requires `5 / 10^0 = 5`. -/
theorem C6_counterexample :
    computeAmountNormalized (some 5) (some 1)
      (fun _ => some ⟨some "TKN", some 0⟩) = none ∧
    ((5 : ℚ) / 10 ^ (0 : Nat)) = 5 := by
  constructor
  · rfl
  · norm_num

/-- **C6, amended.** For every persisted event with a raw integer amount and
a resolved token (id ≠ 0, present in the `tokens` table), the stored
normalized amount equals the raw amount divided by 10^(decimal precision)
whenever the precision is known *and non-zero*; it is null when the precision
is unknown **or zero** (a falsy-`0` quirk of `if (token?.decimals)`), and
null when there is no raw amount. -/
theorem C6_normalization (raw tid : Nat) (tk : TokenRow)
    (tokens : Nat → Option TokenRow)
    (htid : tid ≠ 0) (hlookup : tokens tid = some tk) :
    (∀ d, tk.decimals = some d → d ≠ 0 →
      computeAmountNormalized (some raw) (some tid) tokens
        = some ((raw : ℚ) / 10 ^ d)) ∧
    ((tk.decimals = none ∨ tk.decimals = some 0) →
      computeAmountNormalized (some raw) (some tid) tokens = none) ∧
    computeAmountNormalized none (some tid) tokens = none := by
  refine ⟨?_, ?_, rfl⟩
  · intro d hd hd0
    rw [computeAmountNormalized, if_pos htid, hlookup]
    dsimp only
    rw [hd]
    dsimp only
    rw [if_pos hd0]
  · rintro (hd | hd)
    · rw [computeAmountNormalized, if_pos htid, hlookup]
      dsimp only
      rw [hd]
    · rw [computeAmountNormalized, if_pos htid, hlookup]
      dsimp only
      rw [hd]
      simp

/-- Witness for C6's amended theorem: the spec's example — raw amount
`"1000000000000000000"` with resolved decimal precision 18 normalizes to
exactly 1. -/
theorem C6_normalization_witness :
    computeAmountNormalized (some 1000000000000000000) (some 1)
      (fun _ => some ⟨some "WETH", some 18⟩) = some 1 := by
  have h := (C6_normalization 1000000000000000000 1 ⟨some "WETH", some 18⟩
    (fun _ => some ⟨some "WETH", some 18⟩) (by decide) rfl).1 18 rfl (by decide)
  rw [h]
  norm_num

-- Generic fact: filtering a `filterMap` over a duplicate-free key list by one
-- key `k` of the list returns exactly the optional row generated for `k`,
-- provided each generated row carries its generating key.

theorem filter_filterMap_key {α β : Type} [DecidableEq α]
    (f : α → Option β) (key : β → α) (ks : List α) (hnd : ks.Nodup)
    (hf : ∀ a ∈ ks, ∀ b, f a = some b → key b = a)
    (k : α) (hk : k ∈ ks) :
    (ks.filterMap f).filter (fun b => key b = k) = (f k).toList := by
  induction ks with
  | nil => cases hk
  | cons a ks ih =>
    have hnd' : ks.Nodup := (List.nodup_cons.mp hnd).2
    have hna : a ∉ ks := (List.nodup_cons.mp hnd).1
    have hf' : ∀ a' ∈ ks, ∀ b, f a' = some b → key b = a' :=
      fun a' ha' b hb => hf a' (by simp [ha']) b hb
    have hother : ∀ k', k' ∉ ks →
        (ks.filterMap f).filter (fun b => key b = k') = [] := by
      intro k' hk'
      rw [List.filter_eq_nil_iff]
      intro b hb
      rcases List.mem_filterMap.mp hb with ⟨a', ha', hfa'⟩
      have := hf' a' ha' b hfa'
      simp only [decide_eq_true_eq]
      intro hkey
      exact hk' ((this.symm.trans hkey) ▸ ha')
    rcases List.mem_cons.mp hk with hk | hk
    · subst hk
      cases hfa : f k with
      | none =>
        rw [List.filterMap_cons_none hfa, Option.toList_none]
        exact hother k hna
      | some b =>
        have hkey : key b = k := hf k (by simp) b hfa
        rw [List.filterMap_cons_some hfa]
        rw [List.filter_cons_of_pos (by simp [hkey]), Option.toList_some]
        rw [hother k hna]
    · have hkne : k ≠ a := fun h => hna (h ▸ hk)
      cases hfa : f a with
      | none =>
        rw [List.filterMap_cons_none hfa]
        exact ih hnd' hf' hk
      | some b =>
        have hkey : key b = a := hf a (by simp) b hfa
        rw [List.filterMap_cons_some hfa]
        rw [List.filter_cons_of_neg (by simp [hkey, Ne.symm hkne])]
        exact ih hnd' hf' hk

theorem flowRowFor_key (evs : List EventRow) (k : FlowKey) (hch : k.chain ≠ "")
    (r : DailyFlowRow) (h : flowRowFor evs k = some r) : rowFlowKey r = k := by
  unfold flowRowFor at h
  split at h
  · cases h
  · split at h
    · cases h
    · cases h
      simp [rowFlowKey, if_neg hch]

theorem flowKeys_chain_ne (evs : List EventRow)
    (hchain : ∀ e ∈ evs, e.chain ≠ "") (k : FlowKey) (hk : k ∈ flowKeys evs) :
    k.chain ≠ "" := by
  unfold flowKeys at hk
  rcases List.mem_dedup.mp hk with hk
  rcases List.mem_map.mp hk with ⟨e, he, hke⟩
  have := hchain e (List.mem_of_mem_filter he)
  rw [← hke]
  exact this

/-- **C3.** After the daily-flow recomputation, for every
`(date, network, token)` group of deposit/withdrawal `RawEvents` with a
non-null token (and a real autoincrement token id ≥ 1, chains non-empty): if
the combined deposit+withdrawal transaction count is below 3 no `DailyFlow`
row exists for that key, and if it is 3 or more exactly one row exists, whose
deposit/withdrawal totals, net flow (deposits minus withdrawals) and
transaction counts equal the sums and counts over the underlying events. -/
theorem C3_cohort_suppression (evs : List EventRow) (k : FlowKey)
    (hchain : ∀ e ∈ evs, e.chain ≠ "")
    (hk : k ∈ flowKeys evs) (htid : k.tokenId ≠ 0) :
    (depositTxCount evs k + withdrawalTxCount evs k < 3 →
      (computeDailyFlows evs).filter (fun r => rowFlowKey r = k) = []) ∧
    (3 ≤ depositTxCount evs k + withdrawalTxCount evs k →
      (computeDailyFlows evs).filter (fun r => rowFlowKey r = k)
        = [{ date := k.date
             chain := k.chain
             tokenId := k.tokenId
             totalDeposits := totalDeposits evs k
             totalWithdrawals := totalWithdrawals evs k
             netFlow := totalDeposits evs k - totalWithdrawals evs k
             depositTxCount := depositTxCount evs k
             withdrawalTxCount := withdrawalTxCount evs k }]) := by
  have hch := flowKeys_chain_ne evs hchain k hk
  have hmain : (computeDailyFlows evs).filter (fun r => rowFlowKey r = k)
      = (flowRowFor evs k).toList := by
    apply filter_filterMap_key (flowRowFor evs) rowFlowKey (flowKeys evs)
      (List.nodup_dedup _)
      (fun a ha b hb => flowRowFor_key evs a (flowKeys_chain_ne evs hchain a ha) b hb)
      k hk
  constructor
  · intro hlt
    rw [hmain]
    unfold flowRowFor
    rw [if_neg htid, if_pos (by exact hlt)]
    rfl
  · intro hge
    rw [hmain]
    unfold flowRowFor
    rw [if_neg htid, if_neg (show ¬ (depositTxCount evs k + withdrawalTxCount evs k
      < MIN_TX_THRESHOLD) by unfold MIN_TX_THRESHOLD; omega)]
    simp [if_neg hch]

/-- Witness for C3 on the spec's end-to-end scenario: one deposit (5.0) and
two withdrawals (20.0, 30.0) for the same day, network and token — combined
count 3 reaches the threshold, and the single row holds totals 5 / 50, net
flow −45 and counts 1 / 2. -/
theorem C3_cohort_suppression_witness :
    (computeDailyFlows [scenarioDeposit, scenarioWithdrawal1, scenarioWithdrawal2]).filter
        (fun r => rowFlowKey r = ⟨100, "ethereum", 7⟩)
      = [{ date := 100, chain := "ethereum", tokenId := 7,
           totalDeposits := 5, totalWithdrawals := 50, netFlow := -45,
           depositTxCount := 1, withdrawalTxCount := 2 }] := by
  have h := (C3_cohort_suppression
    [scenarioDeposit, scenarioWithdrawal1, scenarioWithdrawal2]
    ⟨100, "ethereum", 7⟩ (by decide) (by decide) (by decide)).2 (by decide)
  rw [h]
  have hgd : ((flowGroup [scenarioDeposit, scenarioWithdrawal1, scenarioWithdrawal2]
      ⟨100, "ethereum", 7⟩).filter fun e => e.eventType = EventType.deposit)
      = [scenarioDeposit] := by decide
  have hgw : ((flowGroup [scenarioDeposit, scenarioWithdrawal1, scenarioWithdrawal2]
      ⟨100, "ethereum", 7⟩).filter fun e => e.eventType = EventType.withdrawal)
      = [scenarioWithdrawal1, scenarioWithdrawal2] := by decide
  have hd : totalDeposits [scenarioDeposit, scenarioWithdrawal1, scenarioWithdrawal2]
      ⟨100, "ethereum", 7⟩ = 5 := by
    rw [totalDeposits, hgd]
    norm_num [scenarioDeposit]
  have hw : totalWithdrawals [scenarioDeposit, scenarioWithdrawal1, scenarioWithdrawal2]
      ⟨100, "ethereum", 7⟩ = 50 := by
    rw [totalWithdrawals, hgw]
    norm_num [scenarioWithdrawal1, scenarioWithdrawal2]
  have hdc : depositTxCount [scenarioDeposit, scenarioWithdrawal1, scenarioWithdrawal2]
      ⟨100, "ethereum", 7⟩ = 1 := by
    rw [depositTxCount, hgd]
    rfl
  have hwc : withdrawalTxCount [scenarioDeposit, scenarioWithdrawal1, scenarioWithdrawal2]
      ⟨100, "ethereum", 7⟩ = 2 := by
    rw [withdrawalTxCount, hgw]
    rfl
  rw [hd, hw, hdc, hwc]
  norm_num

-- In a `(· ≥ ·)`-sorted list of non-negative rationals, dropping the head
-- can only shrink the sum of the first `k` elements.

theorem sum_take_tail_le (a : ℚ) (t : List ℚ)
    (hsort : (a :: t).Sorted (· ≥ ·)) (hnn : ∀ x ∈ a :: t, 0 ≤ x) (k : Nat) :
    (t.take k).sum ≤ ((a :: t).take k).sum := by
  cases k with
  | zero => simp
  | succ k =>
    rw [List.take_succ, List.take_succ_cons, List.sum_append, List.sum_cons]
    cases hx : t[k]? with
    | none =>
      simp only [hx, Option.toList_none, List.sum_nil, add_zero]
      have ha : 0 ≤ a := hnn a (by simp)
      linarith
    | some x =>
      have hxt : x ∈ t := List.getElem?_mem hx
      have hax : a ≥ x := List.rel_of_sorted_cons hsort x hxt
      simp only [hx, Option.toList_some, List.sum_cons, List.sum_nil, add_zero]
      linarith

-- A sublist of a `(· ≥ ·)`-sorted non-negative list with at most `k`
-- elements sums to at most the sum of the list's first `k` elements.

theorem sum_le_sum_take_of_sublist {s t : List ℚ} (hsub : s.Sublist t) :
    t.Sorted (· ≥ ·) → (∀ x ∈ t, 0 ≤ x) → ∀ k, s.length ≤ k →
    s.sum ≤ (t.take k).sum := by
  induction hsub with
  | slnil =>
    intro _ _ k _
    simp
  | cons a hsub ih =>
    rename_i s t
    intro hsort hnn k hk
    have h1 := ih hsort.of_cons (fun x hx => hnn x (by simp [hx])) k hk
    exact h1.trans (sum_take_tail_le a t hsort hnn k)
  | cons₂ a hsub ih =>
    rename_i s t
    intro hsort hnn k hk
    cases k with
    | zero => simp at hk
    | succ k =>
      rw [List.take_succ_cons, List.sum_cons, List.sum_cons]
      have h1 := ih hsort.of_cons (fun x hx => hnn x (by simp [hx])) k (by simpa using hk)
      linarith

-- The take-5 prefix of the descending sort really is "the five largest":
-- its volume sum dominates the sum of any at-most-five volumes drawn from
-- the group (as a sub-multiset), provided volumes are non-negative.

theorem top5Volume_dominates (rs : List RelayerEntry)
    (hnn : ∀ r ∈ rs, 0 ≤ r.volume) (s : List ℚ)
    (hsub : s.Subperm (rs.map RelayerEntry.volume)) (hlen : s.length ≤ 5) :
    s.sum ≤ top5Volume rs := by
  have hmap : (relayerSortDesc rs).map RelayerEntry.volume
      = (rs.map RelayerEntry.volume).insertionSort (· ≥ ·) := by
    unfold relayerSortDesc
    exact List.map_insertionSort (fun a b => b.volume ≤ a.volume) (fun x y => x ≥ y)
      RelayerEntry.volume rs (fun a _ b _ => Iff.rfl)
  have htop : top5Volume rs
      = (((rs.map RelayerEntry.volume).insertionSort (· ≥ ·)).take 5).sum := by
    rw [top5Volume, List.map_take, hmap]
  have htsort : ((rs.map RelayerEntry.volume).insertionSort (· ≥ ·)).Sorted (· ≥ ·) :=
    List.sorted_insertionSort _ _
  have htnn : ∀ x ∈ (rs.map RelayerEntry.volume).insertionSort (· ≥ ·), 0 ≤ x := by
    intro x hx
    rcases List.mem_map.mp ((List.mem_insertionSort _).mp hx) with ⟨r, hr, hxr⟩
    exact hxr ▸ hnn r hr
  have hs' : (s.insertionSort (· ≥ ·)).Perm s := List.perm_insertionSort _ s
  have hssort : (s.insertionSort (· ≥ ·)).Sorted (· ≥ ·) :=
    List.sorted_insertionSort _ s
  have hsub' : (s.insertionSort (· ≥ ·)).Subperm
      ((rs.map RelayerEntry.volume).insertionSort (· ≥ ·)) :=
    (hs'.subperm.trans hsub).trans
      (List.perm_insertionSort _ (rs.map RelayerEntry.volume)).symm.subperm
  have hsl : (s.insertionSort (· ≥ ·)).Sublist
      ((rs.map RelayerEntry.volume).insertionSort (· ≥ ·)) :=
    List.sublist_of_subperm_of_sorted hsub' hssort htsort
  have hlen' : (s.insertionSort (· ≥ ·)).length ≤ 5 := by
    rw [List.length_insertionSort]
    exact hlen
  have := sum_le_sum_take_of_sublist hsl htsort htnn 5 hlen'
  rw [htop]
  calc s.sum = (s.insertionSort (· ≥ ·)).sum := (hs'.sum_eq).symm
    _ ≤ _ := this

/-- **C9.** For a day whose withdrawal events give relayer volumes
[70, 20, 10], the recomputed stats row has HHI = 0.49 + 0.04 + 0.01 = 0.54
(= 27/50) and top-5 share = 1.  In general, when the total volume is 0 both
metrics are 0; when it is positive, the top-5 share equals the top-5 volume
divided by total volume and the HHI equals the sum of squared volume shares
over the group's relayers (iteration order — the code iterates the sorted
array — does not matter); and the top-5 volume really is the sum of the five
largest volumes: it dominates the sum of any at-most-five volumes drawn from
the group. -/
theorem C9_relayer_concentration :
    (computeRelayerDayStats [⟨"r1", 70, 1⟩, ⟨"r2", 20, 1⟩, ⟨"r3", 10, 1⟩]).hhi = 27/50 ∧
    (computeRelayerDayStats [⟨"r1", 70, 1⟩, ⟨"r2", 20, 1⟩, ⟨"r3", 10, 1⟩]).top5Share = 1 ∧
    (∀ rs, totalVolume rs = 0 →
      (computeRelayerDayStats rs).top5Share = 0 ∧ (computeRelayerDayStats rs).hhi = 0) ∧
    (∀ rs, 0 < totalVolume rs →
      (computeRelayerDayStats rs).top5Share = top5Volume rs / totalVolume rs ∧
      (computeRelayerDayStats rs).hhi
        = (rs.map fun r => (r.volume / totalVolume rs) ^ 2).sum) ∧
    (∀ rs (s : List ℚ), (∀ r ∈ rs, 0 ≤ r.volume) →
      s.Subperm (rs.map RelayerEntry.volume) → s.length ≤ 5 →
      s.sum ≤ top5Volume rs) := by
  have hsorted : List.Sorted (fun a b : RelayerEntry => b.volume ≤ a.volume)
      [⟨"r1", 70, 1⟩, ⟨"r2", 20, 1⟩, ⟨"r3", 10, 1⟩] := by
    norm_num [List.sorted_cons]
  have hsort_eq : relayerSortDesc [⟨"r1", 70, 1⟩, ⟨"r2", 20, 1⟩, ⟨"r3", 10, 1⟩]
      = [⟨"r1", 70, 1⟩, ⟨"r2", 20, 1⟩, ⟨"r3", 10, 1⟩] := by
    unfold relayerSortDesc
    exact hsorted.insertionSort_eq
  have htotal : totalVolume [⟨"r1", 70, 1⟩, ⟨"r2", 20, 1⟩, ⟨"r3", 10, 1⟩] = 100 := by
    norm_num [totalVolume]
  have htop : top5Volume [⟨"r1", 70, 1⟩, ⟨"r2", 20, 1⟩, ⟨"r3", 10, 1⟩] = 100 := by
    rw [top5Volume, hsort_eq]
    norm_num
  refine ⟨?_, ?_, ?_, ?_, ?_⟩
  · show (if 0 < totalVolume [⟨"r1", 70, 1⟩, ⟨"r2", 20, 1⟩, ⟨"r3", 10, 1⟩] then
        ((relayerSortDesc [⟨"r1", 70, 1⟩, ⟨"r2", 20, 1⟩, ⟨"r3", 10, 1⟩]).map
          fun r => (r.volume / totalVolume [⟨"r1", 70, 1⟩, ⟨"r2", 20, 1⟩, ⟨"r3", 10, 1⟩]) ^ 2).sum
      else 0) = 27/50
    rw [htotal, hsort_eq]
    norm_num
  · show (if 0 < totalVolume [⟨"r1", 70, 1⟩, ⟨"r2", 20, 1⟩, ⟨"r3", 10, 1⟩] then
        top5Volume [⟨"r1", 70, 1⟩, ⟨"r2", 20, 1⟩, ⟨"r3", 10, 1⟩]
          / totalVolume [⟨"r1", 70, 1⟩, ⟨"r2", 20, 1⟩, ⟨"r3", 10, 1⟩]
      else 0) = 1
    rw [htotal, htop]
    norm_num
  · intro rs h0
    constructor
    · show (if 0 < totalVolume rs then top5Volume rs / totalVolume rs else 0) = 0
      rw [h0]
      norm_num
    · show (if 0 < totalVolume rs then
          ((relayerSortDesc rs).map fun r => (r.volume / totalVolume rs) ^ 2).sum
        else 0) = 0
      rw [h0]
      norm_num
  · intro rs h0
    constructor
    · show (if 0 < totalVolume rs then top5Volume rs / totalVolume rs else 0)
        = top5Volume rs / totalVolume rs
      rw [if_pos h0]
    · show (if 0 < totalVolume rs then
          ((relayerSortDesc rs).map fun r => (r.volume / totalVolume rs) ^ 2).sum
        else 0) = (rs.map fun r => (r.volume / totalVolume rs) ^ 2).sum
      rw [if_pos h0]
      exact ((List.perm_insertionSort _ rs).map _).sum_eq
  · exact fun rs s hnn hsub hlen => top5Volume_dominates rs hnn s hsub hlen

/-- Witness for C9: the spec's [70, 20, 10] day — HHI 27/50, top-5 share 1 —
and a concrete domination instance: volumes 70 and 20 drawn from the group
sum to at most the top-5 volume. -/
theorem C9_relayer_concentration_witness :
    (computeRelayerDayStats [⟨"r1", 70, 1⟩, ⟨"r2", 20, 1⟩, ⟨"r3", 10, 1⟩]).hhi = 27/50 ∧
    ([(70 : ℚ), 20].sum ≤ top5Volume [⟨"r1", 70, 1⟩, ⟨"r2", 20, 1⟩, ⟨"r3", 10, 1⟩]) := by
  have h := C9_relayer_concentration
  refine ⟨h.1, ?_⟩
  apply h.2.2.2.2 [⟨"r1", 70, 1⟩, ⟨"r2", 20, 1⟩, ⟨"r3", 10, 1⟩] [(70 : ℚ), 20]
  · intro r hr
    simp only [List.mem_cons, List.not_mem_nil, or_false] at hr
    rcases hr with h | h | h <;> subst h <;> norm_num
  · show List.Subperm [(70 : ℚ), 20] [70, 20, 10]
    exact (List.sublist_append_left [(70 : ℚ), 20] [10]).subperm
  · norm_num
